import Mathlib

/-!
Shallow embedding of the backtesting engine in `backtester/engine.py`
(repository GRTran/backtester), together with theorems about the
engine's order sizing, execution gating and cash accounting.

Numeric model: prices and cash are exact rationals `ℚ`.  IEEE
non-finite results (NaN/Inf), which numpy produces on the unguarded
divisions in `Engine._place_orders`, are modelled by `none` in
`FV := Option ℚ`: arithmetic propagates `none`, division by zero yields
`none`, and any comparison involving `none` is `false`, matching IEEE
comparison semantics for NaN.  On every division reachable from the
engine's pipeline with finite inputs, a zero denominator occurs only
with a zero numerator (numpy: `0.0/0.0 = nan`), so collapsing NaN and
Inf into one non-finite value is faithful to the numpy behaviour.
-/

namespace Backtester

/-- Extended float: `some q` is a finite value, `none` a non-finite one. -/
abbrev FV : Type := Option ℚ

/-- Absolute value on the finite values (spelled out so that concrete
instances reduce inside the kernel). -/
def qabs (x : ℚ) : ℚ := if x < 0 then -x else x

/-- Minimum of two finite values. -/
def qmin (x y : ℚ) : ℚ := if x ≤ y then x else y

/-- Maximum of two finite values. -/
def qmax (x y : ℚ) : ℚ := if x ≤ y then y else x

/-- Addition with non-finite propagation. -/
def fadd : FV → FV → FV
  | some a, some b => some (a + b)
  | _, _ => none

/-- Subtraction with non-finite propagation. -/
def fsub : FV → FV → FV
  | some a, some b => some (a - b)
  | _, _ => none

/-- Multiplication with non-finite propagation. -/
def fmul : FV → FV → FV
  | some a, some b => some (a * b)
  | _, _ => none

/-- Division: non-finite on a zero denominator (numpy `0/0` is NaN;
a nonzero numerator over zero never occurs on the engine's reachable
paths with finite data), and non-finite propagation otherwise. -/
def fdiv : FV → FV → FV
  | some a, some b => if b = 0 then none else some (a / b)
  | _, _ => none

/-- Absolute value, preserving non-finiteness. -/
def fabs : FV → FV
  | some a => some (qabs a)
  | none => none

/-- Sum of a vector; any non-finite entry poisons the sum, as with numpy. -/
def fsum (l : List FV) : FV := l.foldr fadd (some 0)

/-- IEEE-style `≤`: any comparison with a non-finite value is `false`. -/
def fle : FV → FV → Bool
  | some a, some b => decide (a ≤ b)
  | _, _ => false

/-- Total list read with default `0`, modelling an in-range numpy index. -/
def qget (l : List ℚ) (i : ℕ) : ℚ := l.getD i 0

/-- Total list read for extended floats, defaulting to non-finite. -/
def fget (l : List FV) (i : ℕ) : FV := l.getD i none

/-- The slice of the price `DataFrame` the engine reads: `nPeriods` rows,
`nTickers` instrument columns, with the "Adj Close" and "Open" fields
(`self.data["Adj Close"].loc[i, t]` and `self.data["Open"].loc[i, t]`). -/
structure MarketData where
  nPeriods : ℕ
  nTickers : ℕ
  adjClose : ℕ → ℕ → ℚ
  openPx : ℕ → ℕ → ℚ

/-- The `Trade` class of engine.py: parallel arrays indexed by ticker
position, one slot per instrument (`self.id`, `self.price`, `self.shares`;
ids are stored in a float array in the source). -/
structure Book where
  id : List ℚ
  price : List ℚ
  shares : List ℚ
deriving DecidableEq

/-- `Trade.value`: `self.price[i] * self.shares[i]`. -/
def Book.value (b : Book) (i : ℕ) : ℚ := qget b.price i * qget b.shares i

/-- `Trade.open_trade`: `abs(self.shares[i]) > 1e-6`. -/
def Book.open_trade (b : Book) (i : ℕ) : Bool :=
  decide ((1 : ℚ) / 1000000 < qabs (qget b.shares i))

/-- `Trade.clear`: `self.id[:] = 0.0` etc., zeroing all slots in place. -/
def Book.clear (b : Book) : Book :=
  ⟨b.id.map fun _ => 0, b.price.map fun _ => 0, b.shares.map fun _ => 0⟩

/-- `eligible(shares, price, cash)`: `abs(shares * price) <= cash`.
With a NaN share count the Python comparison is `False`. -/
def eligible (shares : FV) (price cash : ℚ) : Bool :=
  fle (fabs (fmul shares (some price))) (some cash)

/-- One element of the strategy's returned iterable: a float (possibly
non-finite) or a non-numeric object. -/
inductive Item
  | num (v : FV)
  | other
deriving DecidableEq

/-- Whether an element is numeric. -/
def Item.isNum : Item → Bool
  | num _ => true
  | other => false

/-- Numeric value of an element (unused on non-numeric elements). -/
def Item.val : Item → FV
  | num v => v
  | other => none

/-- Possible shapes of the value returned by the user strategy callback:
either not an `Iterable` at all, or an array-like of elements. -/
inductive StratRet
  | notIterable
  | arr (xs : List Item)
deriving DecidableEq

/-- The exceptions the engine's period loop can surface:
`StrategyException` from the shape check in `_place_orders`, or the
`TypeError` numpy raises when `np.isnan` meets non-numeric data. -/
inductive EngErr
  | strategyError
  | typeError
deriving DecidableEq

/-- The mutable state of an `Engine` object: `self.cash` (one slot per
period), `self.orders`, `self.trades` (the `Trade` book), `self.pos_id`,
and `self.history`.  Each history record would be
(symbol, open price, shares, close price, PnL) with the last two nullable;
every statement appending to or updating `self.history` in the source
(engine.py lines 98 and 179-185) is commented out, so no operation below
ever writes this field. -/
structure EngState where
  cash : List ℚ
  orders : List FV
  book : Book
  posId : ℕ
  history : List (ℕ × ℚ × ℚ × FV × FV)
deriving DecidableEq

/-- The order-sizing pipeline of `Engine._place_orders` (engine.py lines
128-144), applied to an alpha vector that already passed the shape check:
`alphas[np.isnan(alphas)] = 0.0`;
`alphas = 2*(alphas - np.min(alphas))/(np.max(alphas) - np.min(alphas)) - 1`;
`total = np.sum(np.abs(alphas))`;
`value = (alphas/total) * available_cash`; `nshares = value / price`.
There is no guard on the rescaling denominator nor on `total`. -/
def sizeOrders (alphas0 : List FV) (availableCash : ℚ) (refPrice : ℕ → ℚ) :
    List FV :=
  let alphas : List ℚ := alphas0.map fun a => a.getD 0
  let mn : ℚ := match alphas with | [] => 0 | h :: t => t.foldl qmin h
  let mx : ℚ := match alphas with | [] => 0 | h :: t => t.foldl qmax h
  let scaled : List FV := alphas.map fun a =>
    fsub (fdiv (fmul (some 2) (some (a - mn))) (some (mx - mn))) (some 1)
  let total : FV := fsum (scaled.map fabs)
  (List.range alphas.length).map fun k =>
    fdiv (fmul (fdiv (fget scaled k) total) (some availableCash))
      (some (refPrice k))

/-- The cash credited for ticker `k` by `Engine._close_positions` at
period `i`: `abs(value) + pnl` when the slot holds an open trade, where
`pnl = (close - entry_price) * shares`, and nothing otherwise. -/
def closeCredit (d : MarketData) (i : ℕ) (b : Book) (k : ℕ) : ℚ :=
  if b.open_trade k then
    qabs (b.value k) + (d.adjClose i k - qget b.price k) * qget b.shares k
  else 0

/-- `Engine._close_positions(i)`: every open slot credits
`self.cash[i]`, then `self.trades.clear()`. The source loops over
tickers accumulating into the single cell `cash[i]`; the net effect is
adding the sum of the per-ticker credits. -/
def closePositions (d : MarketData) (s : EngState) (i : ℕ) : EngState :=
  { s with
    cash := s.cash.set i
      (qget s.cash i + ((List.range d.nTickers).map (closeCredit d i s.book)).sum),
    book := s.book.clear }

/-- `Engine._place_orders(i)`: call the strategy on the history up to
period `i` (the callback's argument `self.data.loc[:i]` and context are
fixed for a run, so the returned value is a function of `i` alone);
raise `StrategyException` unless the result is an `Iterable` whose
length equals the ticker count; `alphas[np.isnan(alphas)]` raises a
`TypeError` on non-numeric elements; otherwise size the orders from
`self.cash[i]` and the period-`i` adjusted close. -/
def placeOrders (d : MarketData) (strat : ℕ → StratRet) (s : EngState)
    (i : ℕ) : Except EngErr EngState :=
  match strat i with
  | .notIterable => .error .strategyError
  | .arr xs =>
    if xs.length ≠ d.nTickers then .error .strategyError
    else if xs.any (fun it => !it.isNum) then .error .typeError
    else .ok { s with
      orders := sizeOrders (xs.map Item.val) (qget s.cash i) (d.adjClose i) }

/-- One iteration of the order loop in `Engine._place_trades`: if the
order for ticker `k` is eligible against the running cash, fill the
trade slot (`id`, `price`, `shares`), deduct `abs(value)` from cash and
increment `pos_id`; otherwise leave the accumulator unchanged.  A NaN
order is never eligible, so an admitted order is always finite; `getD 0`
on the admitted order extracts that finite value. -/
def tradeStep (d : MarketData) (i : ℕ) (orders : List FV)
    (acc : Book × ℚ × ℕ) (k : ℕ) : Book × ℚ × ℕ :=
  let b := acc.1
  let c := acc.2.1
  let pid := acc.2.2
  let op := d.openPx (i + 1) k
  if eligible (fget orders k) op c then
    let sh := (fget orders k).getD 0
    (⟨b.id.set k (pid : ℚ), b.price.set k op, b.shares.set k sh⟩,
      c - qabs (op * sh), pid + 1)
  else acc

/-- The order loop of `Engine._place_trades`, processed sequentially in
ticker order, also returning the list of admit/reject decisions taken. -/
def tradeLoop (d : MarketData) (i : ℕ) (orders : List FV) :
    List ℕ → Book × ℚ × ℕ → (Book × ℚ × ℕ) × List Bool
  | [], acc => (acc, [])
  | k :: ks, acc =>
    let dec := eligible (fget orders k) (d.openPx (i + 1) k) acc.2.1
    let rest := tradeLoop d i orders ks (tradeStep d i orders acc k)
    (rest.1, dec :: rest.2)

/-- The admit/reject decisions of `Engine._place_trades(i)` on state `s`
(the state after the period's sizing step). -/
def tradeFlags (d : MarketData) (s : EngState) (i : ℕ) : List Bool :=
  (tradeLoop d i s.orders (List.range d.nTickers)
    (s.book, qget s.cash i, s.posId)).2

/-- `Engine._place_trades(i)`: `if len(self.cash) == i + 1: return`;
otherwise `self.cash[i+1] = self.cash[i]` and then the sequential order
loop deducts from `self.cash[i+1]` as trades are admitted. -/
def placeTrades (d : MarketData) (s : EngState) (i : ℕ) : EngState :=
  if s.cash.length = i + 1 then s
  else
    let r := (tradeLoop d i s.orders (List.range d.nTickers)
      (s.book, qget s.cash i, s.posId)).1
    { s with cash := s.cash.set (i + 1) r.2.1, book := r.1, posId := r.2.2 }

/-- Result of running some periods: either the engine object's state, or
the exception raised together with the object's state at the raise point
(a Python exception leaves the engine object inspectable). -/
inductive RunRes
  | ok (s : EngState)
  | failed (e : EngErr) (s : EngState)
deriving DecidableEq

/-- The engine state carried by a run result. -/
def RunRes.state : RunRes → EngState
  | ok s => s
  | failed _ s => s

/-- The exception carried by a run result, if any. -/
def RunRes.err : RunRes → Option EngErr
  | ok _ => none
  | failed e _ => some e

/-- One iteration of the loop in `Engine.run`:
`self._close_positions(i); self._place_orders(i); self._place_trades(i)`.
`_place_orders` can raise; at that point the close step has already
mutated the object. -/
def step (d : MarketData) (strat : ℕ → StratRet) (i : ℕ) (s : EngState) :
    RunRes :=
  let s1 := closePositions d s i
  match placeOrders d strat s1 i with
  | .error e => .failed e s1
  | .ok s2 => .ok (placeTrades d s2 i)

/-- The engine state after the first `m` iterations of `Engine.run`'s
loop; an exception halts the loop and is propagated. -/
def runUpTo (d : MarketData) (strat : ℕ → StratRet) : ℕ → EngState → RunRes
  | 0, s => .ok s
  | m + 1, s =>
    match runUpTo d strat m s with
    | .failed e t => .failed e t
    | .ok t => step d strat m t

/-- `Engine.__init__`: `self.cash = np.zeros(len(timeseries))`,
`self.cash[0] = initial_amount`, zero orders, an empty trade book, and
an empty history table. -/
def initState (initialAmount : ℚ) (d : MarketData) : EngState :=
  { cash := match d.nPeriods with
      | 0 => []
      | Nat.succ m => initialAmount :: List.replicate m 0,
    orders := List.replicate d.nTickers (some 0),
    book := ⟨List.replicate d.nTickers 0, List.replicate d.nTickers 0,
      List.replicate d.nTickers 0⟩,
    posId := 0,
    history := [] }

/-- `Engine.run`: the full loop `for i in range(len(self.data))`. -/
def run (initialAmount : ℚ) (d : MarketData) (strat : ℕ → StratRet) :
    RunRes :=
  runUpTo d strat d.nPeriods (initState initialAmount d)

/-- Number of open positions the book holds for instrument `k`: the book
is a single record per instrument, so this is `0` or `1`. -/
def openCount (b : Book) (k : ℕ) : ℕ := if b.open_trade k then 1 else 0

/-- A strategy return value failing the explicit shape check of
`_place_orders`: not an `Iterable`, or of the wrong length. -/
def badShape (r : StratRet) (n : ℕ) : Prop :=
  r = .notIterable ∨ ∃ xs, r = .arr xs ∧ xs.length ≠ n

/-- Aggregate absolute notional `Σ|order_k * price_k|` of an order
vector against a price vector, with IEEE NaN propagation. -/
def notionalSum (o : List FV) (p : ℕ → ℚ) : FV :=
  fsum ((List.range o.length).map fun k => fabs (fmul (fget o k) (some (p k))))

/-- Finite share count of the order for ticker `k` (an admitted order is
always finite, cf. `tradeStep`). -/
def ordQ (orders : List FV) (k : ℕ) : ℚ := (fget orders k).getD 0

/-- A 3-period market over 2 instruments with every price equal to 10. -/
def d2 : MarketData := ⟨3, 2, fun _ _ => 10, fun _ _ => 10⟩

/-- A strategy that always returns the alpha vector `[1, -1]`. -/
def stratLS : ℕ → StratRet := fun _ => .arr [.num (some 1), .num (some (-1))]

/-- A 2-period market over 5 instruments with every price equal to 10. -/
def d5 : MarketData := ⟨2, 5, fun _ _ => 10, fun _ _ => 10⟩

/-- A strategy returning an iterable of 5 non-numeric elements. -/
def stratBad5 : ℕ → StratRet := fun _ => .arr (List.replicate 5 .other)

/-- A 1-period market over 2 instruments. -/
def dW1 : MarketData := ⟨1, 2, fun _ _ => 10, fun _ _ => 10⟩

/-- A strategy returning a non-iterable value (like `strat1` in
test_engine.py, which returns the integer `1`). -/
def stratNI : ℕ → StratRet := fun _ => .notIterable

/-- The engine state of a `d2`/`stratLS` run at the start of period 1
(after period 0: two trades of 50 and -50 shares placed at price 10,
cash[1] fully deployed). -/
def tW : EngState :=
  ⟨[1000, 0, 0], [some 50, some (-50)], ⟨[0, 1], [10, 10], [50, -50]⟩, 2, []⟩

/-- The state `tW` after period 1's close and sizing steps: the book is
cleared, the two closes credit 1000 back, and the new orders are again
50 and -50 shares. -/
def t2W : EngState :=
  ⟨[1000, 1000, 0], [some 50, some (-50)], ⟨[0, 0], [0, 0], [0, 0]⟩, 2, []⟩

/-- Order vector demanding notional 60 on each of two instruments. -/
def ordersA : List FV := [some 6, some 6]

/-- Order vector like `ordersA` but with instrument 0's order zeroed. -/
def ordersB : List FV := [some 0, some 6]

/-- An empty 2-instrument trade book. -/
def bG : Book := ⟨[0, 0], [0, 0], [0, 0]⟩

/-- An empty 1-instrument trade book. -/
def bk1 : Book := ⟨[0], [0], [0]⟩

/-- A state whose cash trajectory has exactly 2 entries, placed at the
final period `i = 1`. -/
def sFin : EngState := ⟨[100, 50], [some 1], bk1, 0, []⟩

/-- Reading back an in-range updated cell of the cash array. -/
theorem qget_set_self (l : List ℚ) : ∀ (i : ℕ) (v : ℚ), i < l.length →
    qget (l.set i v) i = v := by
  induction l with
  | nil => intro i v h; exact absurd h (by simp)
  | cons a t ih =>
    intro i v h
    cases i with
    | zero => rfl
    | succ j => exact ih j v (Nat.lt_of_succ_lt_succ h)

/-- Updating cell `i` leaves the first `i` cells unchanged. -/
theorem take_set_eq {α : Type} (l : List α) : ∀ (i : ℕ) (v : α),
    (l.set i v).take i = l.take i := by
  induction l with
  | nil => intro i v; rfl
  | cons a t ih =>
    intro i v
    cases i with
    | zero => rfl
    | succ j =>
      show a :: (t.set j v).take j = a :: t.take j
      rw [ih]

/-- A zeroed-out array reads `0` everywhere. -/
theorem qget_map_zero (l : List ℚ) : ∀ k, qget (l.map fun _ => (0 : ℚ)) k = 0 := by
  induction l with
  | nil => intro k; rfl
  | cons a t ih =>
    intro k
    cases k with
    | zero => rfl
    | succ j => exact ih j

/-- A successful `_place_orders` only rewrites the order vector: cash,
trade book and position counter are untouched. -/
theorem placeOrders_ok_fields (d : MarketData) (strat : ℕ → StratRet)
    (s s' : EngState) (i : ℕ) (h : placeOrders d strat s i = .ok s') :
    s'.cash = s.cash ∧ s'.book = s.book ∧ s'.posId = s.posId := by
  unfold placeOrders at h
  split at h
  · exact absurd h (by simp)
  · split at h
    · exact absurd h (by simp)
    · split at h
      · exact absurd h (by simp)
      · cases h
        exact ⟨rfl, rfl, rfl⟩

/-- If every decision of the order loop is an admission, the loop's final
running cash is the initial cash minus the summed absolute notionals. -/
theorem tradeLoop_all_admitted_cash (d : MarketData) (i : ℕ)
    (orders : List FV) : ∀ (ks : List ℕ) (b : Book) (c : ℚ) (pid : ℕ),
    (∀ f ∈ (tradeLoop d i orders ks (b, c, pid)).2, f = true) →
    (tradeLoop d i orders ks (b, c, pid)).1.2.1 =
      c - (ks.map fun k => qabs (d.openPx (i + 1) k * ordQ orders k)).sum := by
  intro ks
  induction ks with
  | nil => intro b c pid _; simp [tradeLoop]
  | cons k ks ih =>
    intro b c pid hall
    have hdec : eligible (fget orders k) (d.openPx (i + 1) k) c = true :=
      hall _ (by simp [tradeLoop])
    have hstep : tradeStep d i orders (b, c, pid) k =
        (⟨b.id.set k (pid : ℚ), b.price.set k (d.openPx (i + 1) k),
            b.shares.set k (ordQ orders k)⟩,
          c - qabs (d.openPx (i + 1) k * ordQ orders k), pid + 1) := by
      simp [tradeStep, hdec, ordQ]
    have hrest : ∀ f ∈ (tradeLoop d i orders ks
        (tradeStep d i orders (b, c, pid) k)).2, f = true := by
      intro f hf
      exact hall f (by simp [tradeLoop]; exact Or.inr hf)
    rw [hstep] at hrest
    have := ih _ _ _ hrest
    simp only [tradeLoop]
    rw [hstep, this, List.map_cons, List.sum_cons]
    ring

/-- A strategy return value failing the shape check makes the period's
iteration raise `StrategyException`, with the engine object in the
post-close state. -/
theorem step_badShape (d : MarketData) (strat : ℕ → StratRet)
    (t : EngState) (i : ℕ) (hbad : badShape (strat i) d.nTickers) :
    step d strat i t = .failed .strategyError (closePositions d t i) := by
  rcases hbad with h | ⟨xs, hxs, hlen⟩
  · simp [step, placeOrders, h]
  · simp [step, placeOrders, hxs, hlen]

/-- An exception raised at period `i` halts the loop: every longer run
returns the same exception and the same final object state. -/
theorem runUpTo_fail_propagates (d : MarketData) (strat : ℕ → StratRet)
    (s0 t u : EngState) (e : EngErr) (i : ℕ)
    (hrun : runUpTo d strat i s0 = .ok t)
    (hstep : step d strat i t = .failed e u) :
    ∀ m, i < m → runUpTo d strat m s0 = .failed e u := by
  intro m
  induction m with
  | zero => intro h; exact absurd h (by omega)
  | succ m ih =>
    intro him
    rcases Nat.lt_succ_iff_lt_or_eq.mp him with h | h
    · simp [runUpTo, ih h]
    · subst h
      simp [runUpTo, hrun, hstep]

/-- C1: the Order Sizer has no guard on the degenerate (all-equal) alpha
vector: on five equal alphas with cash 1000 and reference price 10 the
unguarded `0/0` rescale makes every order non-finite (NaN), not the
all-zero order vector the specification requires. -/
theorem degenerate_alpha_orders_are_nan :
    sizeOrders (List.replicate 5 (some 1)) 1000 (fun _ => 10) =
      List.replicate 5 (none : FV) ∧
    sizeOrders (List.replicate 5 (some 1)) 1000 (fun _ => 10) ≠
      List.replicate 5 (some (0 : ℚ)) := by
  constructor
  · with_unfolding_all decide
  · with_unfolding_all decide

/-- C2: the Order Sizer's notional bound `Σ|order_k * price_k| ≤ cash`
fails on the all-equal (finite) alpha vector: the orders are NaN, the
aggregate notional is NaN, and the IEEE comparison with the available
cash is false. -/
theorem degenerate_alpha_notional_bound_fails :
    notionalSum (sizeOrders (List.replicate 5 (some 1)) 1000 (fun _ => 10))
      (fun _ => 10) = none ∧
    fle (notionalSum (sizeOrders (List.replicate 5 (some 1)) 1000
      (fun _ => 10)) (fun _ => 10)) (some 1000) = false := by
  constructor
  · with_unfolding_all decide
  · with_unfolding_all decide

/-- C3 counterexample: a strategy returning an iterable of the correct
length whose elements are not real numbers passes the engine's shape
check and then makes `np.isnan` raise a `TypeError`; the engine does not
raise `StrategyException` as the claim states. -/
theorem wrong_item_type_raises_type_error :
    (runUpTo d5 stratBad5 1 (initState 1000 d5)).err =
      some EngErr.typeError ∧
    some EngErr.typeError ≠ some EngErr.strategyError := by
  constructor
  · with_unfolding_all decide
  · with_unfolding_all decide

/-- C3 amended: if at period `i` the strategy returns a non-iterable
value or an iterable of the wrong length, every continuation of the run
halts with `StrategyException` at period `i`, and the cash trajectory
entries of all periods up to and including the last completed period
`i - 1`, as well as the (always empty) trade history log, are exactly
what they were before period `i` began. -/
theorem strategy_shape_error_halts_run (d : MarketData)
    (strat : ℕ → StratRet) (s0 t : EngState) (i m : ℕ)
    (him : i < m)
    (hrun : runUpTo d strat i s0 = .ok t)
    (hbad : badShape (strat i) d.nTickers) :
    runUpTo d strat m s0 =
      .failed .strategyError (closePositions d t i) ∧
    (closePositions d t i).cash.take i = t.cash.take i ∧
    (closePositions d t i).history = t.history := by
  refine ⟨runUpTo_fail_propagates d strat s0 t _ _ i hrun
    (step_badShape d strat t i hbad) m him, ?_, rfl⟩
  exact take_set_eq t.cash i _

/-- Closed instance of the amended C3 statement: a strategy returning a
non-iterable value at period 0 of a 1-period run. -/
theorem strategy_shape_error_halts_run_witness :
    (0 < 1 ∧
      runUpTo dW1 stratNI 0 (initState 100 dW1) = .ok (initState 100 dW1) ∧
      badShape (stratNI 0) dW1.nTickers) ∧
    (runUpTo dW1 stratNI 1 (initState 100 dW1) =
        .failed .strategyError (closePositions dW1 (initState 100 dW1) 0) ∧
      (closePositions dW1 (initState 100 dW1) 0).cash.take 0 =
        (initState 100 dW1).cash.take 0 ∧
      (closePositions dW1 (initState 100 dW1) 0).history =
        (initState 100 dW1).history) :=
  ⟨⟨by decide, rfl, Or.inl rfl⟩,
    strategy_shape_error_halts_run dW1 stratNI (initState 100 dW1)
      (initState 100 dW1) 0 1 (by decide) rfl (Or.inl rfl)⟩

/-- C4: for a period `i` in which the sizing step succeeds and no order
is rejected by the execution gate, the iteration produces
`cash[i+1] = cash[i] - Σ|open_price_k * order_k| + Σ(close credits of
period i's close step)`, where `cash[i]` is the balance at the start of
period `i`'s iteration and the balance is carried forward to slot `i+1`
before the open-step deductions are applied against it. -/
theorem cash_recurrence (d : MarketData) (strat : ℕ → StratRet)
    (t t2 : EngState) (i : ℕ)
    (hi : 0 < i)
    (hlen : t.cash.length = d.nPeriods)
    (hN : i + 1 < d.nPeriods)
    (hord : placeOrders d strat (closePositions d t i) i = .ok t2)
    (hnorej : ∀ f ∈ tradeFlags d t2 i, f = true) :
    step d strat i t = .ok (placeTrades d t2 i) ∧
    qget (placeTrades d t2 i).cash (i + 1) =
      qget t.cash i
        - ((List.range d.nTickers).map fun k =>
            qabs (d.openPx (i + 1) k * ordQ t2.orders k)).sum
        + ((List.range d.nTickers).map (closeCredit d i t.book)).sum := by
  constructor
  · simp [step, hord]
  · obtain ⟨hc, hb, hp⟩ := placeOrders_ok_fields d strat _ t2 i hord
    have hlen2 : t2.cash.length = d.nPeriods := by
      rw [hc]
      show (t.cash.set i _).length = d.nPeriods
      rw [List.length_set, hlen]
    have hne : ¬ t2.cash.length = i + 1 := by omega
    have hi1 : i + 1 < t2.cash.length := by omega
    have hi0 : i < t.cash.length := by omega
    have e1 : qget t2.cash i =
        qget t.cash i +
          ((List.range d.nTickers).map (closeCredit d i t.book)).sum := by
      rw [hc]
      exact qget_set_self t.cash i _ hi0
    have e2 : qget (placeTrades d t2 i).cash (i + 1) =
        (tradeLoop d i t2.orders (List.range d.nTickers)
          (t2.book, qget t2.cash i, t2.posId)).1.2.1 := by
      unfold placeTrades
      rw [if_neg hne]
      exact qget_set_self t2.cash (i + 1) _ hi1
    have hloop := tradeLoop_all_admitted_cash d i t2.orders
      (List.range d.nTickers) t2.book (qget t2.cash i) t2.posId hnorej
    rw [e2, hloop, e1]
    ring

/-- Closed instance of C4 at period 1 of the `d2`/`stratLS` run: both
closes credit 1000, both new orders are admitted and deduct 1000, and
`cash[2] = 0 - 1000 + 1000 = 0`. -/
theorem cash_recurrence_witness :
    (placeOrders d2 stratLS (closePositions d2 tW 1) 1 = .ok t2W ∧
      (∀ f ∈ tradeFlags d2 t2W 1, f = true)) ∧
    (step d2 stratLS 1 tW = .ok (placeTrades d2 t2W 1) ∧
      qget (placeTrades d2 t2W 1).cash (1 + 1) =
        qget tW.cash 1
          - ((List.range d2.nTickers).map fun k =>
              qabs (d2.openPx (1 + 1) k * ordQ t2W.orders k)).sum
          + ((List.range d2.nTickers).map (closeCredit d2 1 tW.book)).sum) :=
  ⟨⟨by with_unfolding_all rfl, by with_unfolding_all decide⟩,
    cash_recurrence d2 stratLS tW t2W 1 (by decide) (by decide) (by decide)
      (by with_unfolding_all rfl) (by with_unfolding_all decide)⟩

/-- C5: the engine does not skip the Size step at the first period: in a
run whose strategy returns alphas `[1, -1]`, period 0 already consults
the strategy and produces the nonzero order vector `[50, -50]` shares,
contradicting the claimed skip. -/
theorem first_period_strategy_consulted :
    (runUpTo d2 stratLS 1 (initState 1000 d2)).state.orders =
      [some (50 : ℚ), some (-50 : ℚ)] ∧
    [some (50 : ℚ), some (-50 : ℚ)] ≠ List.replicate 2 (some (0 : ℚ)) := by
  constructor
  · with_unfolding_all decide
  · with_unfolding_all decide

/-- C6: the trade history log is never written: after a complete
3-period run in which 4 trades are executed (`pos_id` ends at 4), the
history is still empty instead of holding one record per executed trade
(the appending statements in the source are commented out). -/
theorem history_log_never_written :
    (run 1000 d2 stratLS).state.history = [] ∧
    (run 1000 d2 stratLS).state.posId = 4 ∧
    (run 1000 d2 stratLS).state.history.length ≠
      (run 1000 d2 stratLS).state.posId := by
  refine ⟨by with_unfolding_all decide, by with_unfolding_all decide, by with_unfolding_all decide⟩

/-- C7: the position book holds at most one open position per instrument
(it is a single record per instrument slot), and the close step clears
the whole book, so no position opened in one period survives past the
close step of the following period. -/
theorem close_clears_book_and_one_position_per_instrument :
    (∀ (d : MarketData) (s : EngState) (i k : ℕ),
      Book.open_trade (closePositions d s i).book k = false) ∧
    (∀ (b : Book) (k : ℕ), openCount b k ≤ 1) := by
  constructor
  · intro d s i k
    show Book.open_trade s.book.clear k = false
    have h0 : qget (Book.clear s.book).shares k = 0 := qget_map_zero _ k
    show decide ((1 : ℚ) / 1000000 < qabs (qget (Book.clear s.book).shares k)) =
      false
    rw [h0]
    with_unfolding_all decide
  · intro b k
    unfold openCount
    split
    · exact le_refl 1
    · exact Nat.zero_le 1

/-- C8 counterexample: with cash 100 and open prices 10, changing only
instrument 0's order (from 6 shares to 0 shares) flips instrument 1's
admit/reject decision from rejected to admitted, because the gate checks
each order against the cash balance left by earlier instruments. -/
theorem admit_decision_depends_on_other_instrument :
    (tradeLoop dW1 0 ordersA [0, 1] (bG, 100, 0)).2 = [true, false] ∧
    (tradeLoop dW1 0 ordersB [0, 1] (bG, 100, 0)).2 = [true, true] ∧
    fget ordersA 1 = fget ordersB 1 := by
  refine ⟨by with_unfolding_all decide, by with_unfolding_all decide, by with_unfolding_all decide⟩

/-- C8 amended: the per-instrument close computation is independent
across instruments — instrument `k`'s close credit depends only on
instrument `k`'s own recorded entry price and share count (and prices) —
while the open step's admit/reject decision is not independent, since it
consults the cash balance left by previously processed instruments. -/
theorem close_credit_per_instrument (d : MarketData) (i k : ℕ)
    (b b' : Book)
    (hp : qget b.price k = qget b'.price k)
    (hs : qget b.shares k = qget b'.shares k) :
    closeCredit d i b k = closeCredit d i b' k := by
  unfold closeCredit Book.open_trade Book.value
  rw [hp, hs]

/-- Closed instance of the amended C8 statement: two books differing in
every slot except instrument 1's price and shares give instrument 1 the
same close credit. -/
theorem close_credit_per_instrument_witness :
    closeCredit dW1 0 (⟨[0, 0], [1, 2], [3, 4]⟩ : Book) 1 =
      closeCredit dW1 0 (⟨[9, 0], [7, 2], [8, 4]⟩ : Book) 1 :=
  close_credit_per_instrument dW1 0 1 _ _ (by with_unfolding_all decide)
    (by with_unfolding_all decide)

/-- C9: a trade slot is considered open exactly when the absolute share
count exceeds `1e-6`; an admitted order with `0 < |shares| ≤ 1e-6` has
its absolute notional deducted from cash by the open step, yet the
resulting slot is not recognized as open, so every later close step
credits nothing back for it. -/
theorem tiny_admitted_order_cash_leak (d : MarketData) (i : ℕ)
    (orders : List FV) (b : Book) (c : ℚ) (pid k : ℕ)
    (helig : eligible (fget orders k) (d.openPx (i + 1) k) c = true)
    (hpos : 0 < qabs (ordQ orders k))
    (hsmall : qabs (ordQ orders k) ≤ 1 / 1000000)
    (hk : k < b.shares.length) :
    (tradeStep d i orders (b, c, pid) k).2.1 =
      c - qabs (d.openPx (i + 1) k * ordQ orders k) ∧
    Book.open_trade (tradeStep d i orders (b, c, pid) k).1 k = false ∧
    (∀ (d' : MarketData) (j : ℕ),
      closeCredit d' j (tradeStep d i orders (b, c, pid) k).1 k = 0) ∧
    (∀ (bb : Book) (j : ℕ),
      bb.open_trade j = decide ((1 : ℚ) / 1000000 < qabs (qget bb.shares j))) := by
  have hstep : tradeStep d i orders (b, c, pid) k =
      (⟨b.id.set k (pid : ℚ), b.price.set k (d.openPx (i + 1) k),
          b.shares.set k (ordQ orders k)⟩,
        c - qabs (d.openPx (i + 1) k * ordQ orders k), pid + 1) := by
    simp [tradeStep, helig, ordQ]
  have hopen : Book.open_trade (tradeStep d i orders (b, c, pid) k).1 k =
      false := by
    rw [hstep]
    have hq : qget (b.shares.set k (ordQ orders k)) k = ordQ orders k :=
      qget_set_self b.shares k _ hk
    simp only [Book.open_trade, hq]
    exact decide_eq_false (not_lt.mpr hsmall)
  refine ⟨by rw [hstep], hopen, ?_, fun bb j => rfl⟩
  intro d' j
  unfold closeCredit
  rw [hopen]
  simp

/-- Closed instance of C9: an admitted order of `1/2000000` shares at
price 10 against cash 100 deducts its notional but leaves a slot no
close step ever credits. -/
theorem tiny_admitted_order_cash_leak_witness :
    (tradeStep dW1 0 [some ((1 : ℚ) / 2000000)] (bk1, 100, 0) 0).2.1 =
      100 - qabs (dW1.openPx (0 + 1) 0 * ordQ [some ((1 : ℚ) / 2000000)] 0) ∧
    Book.open_trade
      (tradeStep dW1 0 [some ((1 : ℚ) / 2000000)] (bk1, 100, 0) 0).1 0 =
        false ∧
    (∀ (d' : MarketData) (j : ℕ),
      closeCredit d' j
        (tradeStep dW1 0 [some ((1 : ℚ) / 2000000)] (bk1, 100, 0) 0).1 0 =
          0) ∧
    (∀ (bb : Book) (j : ℕ),
      bb.open_trade j = decide ((1 : ℚ) / 1000000 < qabs (qget bb.shares j))) :=
  tiny_admitted_order_cash_leak dW1 0 [some ((1 : ℚ) / 2000000)] bk1 100 0 0
    (by with_unfolding_all decide) (by with_unfolding_all decide)
    (by with_unfolding_all decide) (by decide)

/-- C10: at the final period the guard `len(self.cash) == i + 1` makes
`_place_trades` return unchanged before any access to period `i+1`'s
data: no trade is executed, the last cash entry is not reduced, and the
orders sized at the final period are discarded. -/
theorem final_period_place_trades_is_noop (d : MarketData) (s : EngState)
    (i : ℕ) (h : s.cash.length = i + 1) : placeTrades d s i = s := by
  unfold placeTrades
  rw [if_pos h]

/-- Closed instance of C10: a 2-period cash trajectory at period 1. -/
theorem final_period_place_trades_is_noop_witness :
    sFin.cash.length = 1 + 1 ∧ placeTrades dW1 sFin 1 = sFin :=
  ⟨by decide, final_period_place_trades_is_noop dW1 sFin 1 (by decide)⟩

end Backtester
